import Mathlib

/-!
Verification of the chunked Conway's Game of Life simulation core
(`src/main.rs`, `src/utils.rs`).

The embedding models the simulation core faithfully, omitting only the
rendering/mesh and windowing collaborators (meshes, materials, entities),
which the specification places out of scope.

Numeric conventions of the embedding:
* Rust `i32` values are modelled as `Int`; the alive counters stay within
  `[0, 2500]` in every reachable state, so `i32` wraparound is unreachable
  and plain `Int` arithmetic is faithful.
* The coordinate mapper (`utils.rs`) computes on `f64` and casts back with
  Rust's saturating `as i32` cast.  For inputs that are themselves `i32`
  values, every intermediate `f64` value (`x * 50.0`, `x / 50.0`, and its
  floor) is exact, because the magnitudes stay far below `2^53`; the only
  inexact step is the saturating cast, modelled by `i32sat`.
* World coordinates reaching `set_cell_state` / `get_cell_state` are `f32`
  cursor positions; cells live at integer world coordinates, and for
  integer-valued inputs (magnitude below `2^24`) the source's `f32`
  computations `x % 50.0` and `(50.0 + (x % 50.0)) % 50.0` are exact and
  agree with `Int.tmod`-arithmetic, which is how they are embedded here.
-/

/-- Smallest `i32` value. -/
def i32min : Int := -2147483648

/-- Largest `i32` value. -/
def i32max : Int := 2147483647

/-- Rust's saturating `as i32` cast applied to an (exactly represented)
integer-valued `f64`. -/
def i32sat (x : Int) : Int := max i32min (min i32max x)

/-- Embedding of `utils::to_chunk_pos`: `(floor(x / 50.0) as i32, floor(y / 50.0) as i32)`.
For `i32`-ranged inputs the `f64` division and floor are exact, so the floor
is `Int.fdiv`. -/
def to_chunk_pos (p : Int × Int) : Int × Int :=
  (i32sat (p.1.fdiv 50), i32sat (p.2.fdiv 50))

/-- Embedding of `utils::from_chunk_pos`: `(floor(x * 50.0) as i32, floor(y * 50.0) as i32)`.
For `i32` inputs the `f64` product is exact (so the floor is the identity),
and the `as i32` cast saturates. -/
def from_chunk_pos (p : Int × Int) : Int × Int :=
  (i32sat (p.1 * 50), i32sat (p.2 * 50))

/-- The local in-chunk coordinate computed in `set_cell_state` / `get_cell_state`:
`((50.0 + (x % 50.0)) % 50.0)`.  Rust's `%` on numbers is the truncated
remainder, i.e. `Int.tmod` on integer values. -/
def localRaw (x : Int) : Int := (50 + x.tmod 50).tmod 50

/-- The local in-chunk coordinate as an array index (the source's `as usize`
cast of a value already in `[0, 50)`). -/
def localFin (x : Int) : Fin 50 :=
  ⟨(localRaw x).toNat, by
    have hlow : -50 < x.tmod 50 := by
      cases x with
      | ofNat m =>
          have h := Int.tmod_nonneg (a := Int.ofNat m) 50 (Int.ofNat_nonneg m)
          omega
      | negSucc m =>
          have h : (Int.negSucc m).tmod 50 = -(((m + 1) % 50 : Nat) : Int) := rfl
          have h2 : (m + 1) % 50 < 50 := Nat.mod_lt _ (by norm_num)
          omega
    have hnn : (0 : Int) ≤ 50 + x.tmod 50 := by omega
    have h1 : 0 ≤ (50 + x.tmod 50).tmod 50 := Int.tmod_nonneg _ hnn
    have h2 : (50 + x.tmod 50).tmod 50 < 50 := Int.tmod_lt_of_pos _ (by norm_num)
    unfold localRaw
    omega⟩

/-- A 50 by 50 boolean cell grid (`[[bool; 50]; 50]`), indexed as `grid x y`
like the source's `grid[x][y]`. -/
abbrev Grid := Fin 50 → Fin 50 → Bool

/-- The all-dead grid `[[false; 50]; 50]`. -/
def Grid.allFalse : Grid := fun _ _ => false

/-- Checked array access `grid[x][y]` for `i32` indices: `none` models the
out-of-bounds panic. -/
def Grid.get? (g : Grid) (x y : Int) : Option Bool :=
  if hx : 0 ≤ x ∧ x < 50 then
    if hy : 0 ≤ y ∧ y < 50 then
      some (g ⟨x.toNat, by omega⟩ ⟨y.toNat, by omega⟩)
    else none
  else none

/-- Write a single cell (`grid[i][j] = b`). -/
def Grid.set (g : Grid) (i j : Fin 50) (b : Bool) : Grid :=
  fun x y => if x = i ∧ y = j then b else g x y

/-- Number of `true` cells in one row prefix `g x 0 .. g x (n-1)`. -/
def Grid.countRow (g : Grid) (x : Fin 50) : Nat → Int
  | 0 => 0
  | j + 1 => (if h : j < 50 then (bif g x ⟨j, h⟩ then 1 else 0) else 0) + Grid.countRow g x j

/-- Number of `true` cells in the first `n` rows. -/
def Grid.countRows (g : Grid) : Nat → Int
  | 0 => 0
  | i + 1 => (if h : i < 50 then Grid.countRow g ⟨i, h⟩ 50 else 0) + Grid.countRows g i

/-- Number of `true` cells of a grid (the quantity the source accumulates by
adding 1 per live cell). -/
def Grid.count (g : Grid) : Int := Grid.countRows g 50

/-- Embedding of `Chunk` (`main.rs`), without the bevy rendering fields
(`mesh`, `entity`), which the specification puts out of scope. -/
structure Chunk where
  pos : Int × Int
  last_gen : Grid
  last_gen_alive : Int
  current_gen : Grid
  current_gen_alive : Int

/-- Embedding of `Chunk::new`: all-dead grids, both counters zero. -/
def Chunk.new (pos : Int × Int) : Chunk :=
  { pos := pos
    last_gen := Grid.allFalse
    last_gen_alive := 0
    current_gen := Grid.allFalse
    current_gen_alive := 0 }

/-- Embedding of `Chunk::prepare_tick`. -/
def Chunk.prepare_tick (c : Chunk) : Chunk :=
  { c with
    last_gen := c.current_gen
    last_gen_alive := c.current_gen_alive
    current_gen := Grid.allFalse
    current_gen_alive := 0 }

/-- The eight neighbor offsets, in the order used both by `Universe::tick`
when assembling the snapshot array and frontier-growth list, and by
`Chunk::get_alive_neighbors` (clockwise starting west: W, NW, N, NE, E, SE,
S, SW). -/
def nbrOffsets : List (Int × Int) :=
  [(-1, 0), (-1, 1), (0, 1), (1, 1), (1, 0), (1, -1), (0, -1), (-1, -1)]

/-- Embedding of `Chunk::get_neighbor_status` as written, with checked array
accesses (`none` models the index-out-of-range panic of the final arm).  The
match arms are tried in source order. -/
def Chunk.get_neighbor_status? (c : Chunk) (nbrs : Fin 8 → Grid) (p : Int × Int) :
    Option Bool :=
  if p = (-1, 50) then (nbrs 1).get? 49 0
  else if p = (50, 50) then (nbrs 3).get? 0 0
  else if p = (50, -1) then (nbrs 5).get? 0 49
  else if p = (-1, -1) then (nbrs 7).get? 49 49
  else if p.1 = -1 then (nbrs 0).get? 49 p.2
  else if p.2 = 50 then (nbrs 2).get? p.1 0
  else if p.1 = 50 then (nbrs 4).get? 0 p.2
  else if p.2 = -1 then (nbrs 6).get? p.1 49
  else c.last_gen.get? p.1 p.2

/-- Total version of `Chunk::get_neighbor_status`.  The default is never
taken for the positions queried by `Chunk::get_alive_neighbors` (proved
below), so this agrees with the panicking source on all reachable inputs. -/
def Chunk.get_neighbor_status (c : Chunk) (nbrs : Fin 8 → Grid) (p : Int × Int) : Bool :=
  (c.get_neighbor_status? nbrs p).getD false

/-- Embedding of `Chunk::get_alive_neighbors`: the eight explicit
accumulations, folded over the same offsets in the same order. -/
def Chunk.get_alive_neighbors (c : Chunk) (nbrs : Fin 8 → Grid) (p : Int × Int) : Int :=
  nbrOffsets.foldl
    (fun acc d => acc + (bif c.get_neighbor_status nbrs (p.1 + d.1, p.2 + d.2) then 1 else 0)) 0

/-- Embedding of the `match alive_neighbors { 2 | 3 if alive => true, 3 if
!alive => true, _ => false }` rule of `Chunk::tick`, arms in source order. -/
def lifeRule (alive : Bool) (n : Int) : Bool :=
  if (n == 2 || n == 3) && alive then true
  else if n == 3 && !alive then true
  else false

/-- Embedding of `Chunk::tick`: recompute `current_gen` cell by cell from
`last_gen` and the neighbor snapshots, adding one to `current_gen_alive` per
live result (the loop accumulates exactly the count of the new grid on top
of the incoming counter value). -/
def Chunk.tick (c : Chunk) (nbrs : Fin 8 → Grid) : Chunk :=
  let newGen : Grid := fun x y =>
    lifeRule (c.last_gen x y) (c.get_alive_neighbors nbrs ((x : Int), (y : Int)))
  { c with
    current_gen := newGen
    current_gen_alive := c.current_gen_alive + newGen.count }

/-- Embedding of `Chunk::changed`: `current_gen != last_gen`. -/
def Chunk.changed (c : Chunk) : Bool :=
  decide (c.current_gen ≠ c.last_gen)

/-- The sparse chunk storage (`HashMap<(i32, i32), Chunk>`), modelled as an
association list with unique keys; iteration order is irrelevant to every
observable property proved below. -/
abbrev ChunkMap := List ((Int × Int) × Chunk)

/-- Key lookup (`HashMap::get`): first entry with the given key. -/
def findChunk (k : Int × Int) : ChunkMap → Option Chunk
  | [] => none
  | (k', c) :: rest => if k' = k then some c else findChunk k rest

/-- The key list of the map. -/
def keysOf (m : ChunkMap) : List (Int × Int) := m.map Prod.fst

/-- Spawn-if-absent, the pattern `if !self.chunks.contains_key(..) {
self.spawn_chunk(..) }` used by `get_chunk` and `set_cell_state`
(`spawn_chunk` inserts `Chunk::new`; the rendering side effects are out of
scope). -/
def ensureChunk (m : ChunkMap) (k : Int × Int) : ChunkMap :=
  match findChunk k m with
  | some _ => m
  | none => m ++ [(k, Chunk.new k)]

/-- In-place update of the entry at a key (`HashMap::get_mut`). -/
def updChunk (m : ChunkMap) (k : Int × Int) (f : Chunk → Chunk) : ChunkMap :=
  m.map (fun kc => if kc.1 = k then (kc.1, f kc.2) else kc)

/-- Embedding of `Universe` (`main.rs`), without the bevy `material` handle. -/
structure Universe where
  chunks : ChunkMap

/-- Embedding of `Universe::new` (starts with no chunks). -/
def Universe.new : Universe := ⟨[]⟩

/-- Embedding of `Universe::set_cell_state` at an integer world position:
spawn the chunk if absent, then write `state` into `current_gen` at the
local coordinate.  Note that the source does not touch `current_gen_alive`
here. -/
def Universe.set_cell_state (u : Universe) (p : Int × Int) (state : Bool) : Universe :=
  let cp := to_chunk_pos p
  ⟨updChunk (ensureChunk u.chunks cp) cp
    (fun c => { c with current_gen := c.current_gen.set (localFin p.1) (localFin p.2) state })⟩

/-- Embedding of `Universe::get_cell_state` as a state-passing function
(`&mut self` in the source): the body only performs a lookup (`get_mut`
without any insertion), returns the cell if the chunk exists and `false`
otherwise, and leaves the map untouched in both branches. -/
def Universe.get_cell_stateS (u : Universe) (p : Int × Int) : Bool × Universe :=
  match findChunk (to_chunk_pos p) u.chunks with
  | some c => (c.current_gen (localFin p.1) (localFin p.2), u)
  | none => (false, u)

/-- The value returned by `Universe::get_cell_state`. -/
def Universe.get_cell_state (u : Universe) (p : Int × Int) : Bool :=
  (u.get_cell_stateS p).1

/-- The frontier-growth work list of `Universe::tick`: for every chunk with
`last_gen_alive > 0`, push its eight neighbor coordinates (source push
order). -/
def growList (m : ChunkMap) : List (Int × Int) :=
  m.foldl
    (fun acc kc =>
      if kc.2.last_gen_alive > 0 then
        acc ++ nbrOffsets.map (fun d => (kc.1.1 + d.1, kc.1.2 + d.2))
      else acc) []

/-- Phase 2 of `Universe::tick`: `for pos in needed_chunks { self.get_chunk(.., pos); }`. -/
def growChunks (m : ChunkMap) : ChunkMap :=
  (growList m).foldl ensureChunk m

/-- The eight ordered neighbor grids assembled by `Universe::tick` from the
frozen snapshot, chunks absent from the snapshot contributing
`[[false; 50]; 50]`. -/
def nbrGrids (snap : Int × Int → Option Grid) (k : Int × Int) : Fin 8 → Grid :=
  fun i =>
    (snap (k.1 + (nbrOffsets.getD i.1 (0, 0)).1, k.2 + (nbrOffsets.getD i.1 (0, 0)).2)).getD
      Grid.allFalse

/-- Phase 1 of `Universe::tick`: `for (_, chunk) in &mut self.chunks { chunk.prepare_tick() }`. -/
def prepareAll (m : ChunkMap) : ChunkMap :=
  m.map (fun kc => (kc.1, kc.2.prepare_tick))

/-- Phase 3 of `Universe::tick`: the frozen snapshot mapping each chunk
coordinate to that chunk's `last_gen`. -/
def snapOf (m : ChunkMap) : Int × Int → Option Grid :=
  fun k => (findChunk k m).map Chunk.last_gen

/-- Phase 4 of `Universe::tick`: tick every chunk against the snapshot. -/
def tickAll (m : ChunkMap) : ChunkMap :=
  m.map (fun kc => (kc.1, kc.2.tick (nbrGrids (snapOf m) kc.1)))

/-- Embedding of `Universe::tick`: prepare every chunk, grow the frontier,
freeze the snapshot of every `last_gen`, then tick every chunk against the
snapshot.  The mesh-refresh phase only drives rendering and is out of
scope. -/
def Universe.tick (u : Universe) : Universe :=
  ⟨tickAll (growChunks (prepareAll u.chunks))⟩

/-- Iterated `Universe::tick`. -/
def tickN : Nat → Universe → Universe
  | 0, u => u
  | n + 1, u => (tickN n u).tick

/-- Abstraction function: the infinite field of current-generation cell
states stored in the universe (world position `50 * k + local` for the cell
at local index `local` of the chunk with key `k`; cells of absent chunks are
dead). -/
def worldCur (u : Universe) (p : Int × Int) : Bool :=
  match findChunk (p.1.fdiv 50, p.2.fdiv 50) u.chunks with
  | some c => c.current_gen (localFin p.1) (localFin p.2)
  | none => false

/-- Abstraction function for the previous-generation field of a chunk map. -/
def worldLastM (m : ChunkMap) (p : Int × Int) : Bool :=
  match findChunk (p.1.fdiv 50, p.2.fdiv 50) m with
  | some c => c.last_gen (localFin p.1) (localFin p.2)
  | none => false

/-- Number of live cells among the eight neighbors of a point of an infinite
boolean field. -/
def neighborCount (w : Int × Int → Bool) (p : Int × Int) : Int :=
  nbrOffsets.foldl (fun acc d => acc + (bif w (p.1 + d.1, p.2 + d.2) then 1 else 0)) 0

/-- Reference model: one step of the standard Conway rule on the infinite
grid, stated from the specification's words (a live cell survives with
exactly 2 or 3 live neighbors; a dead cell becomes live with exactly 3 live
neighbors; all other combinations yield dead). -/
def conwayStep (w : Int × Int → Bool) : Int × Int → Bool :=
  fun p =>
    let n := neighborCount w p
    if w p then decide (n = 2 ∨ n = 3) else decide (n = 3)

/-- Test universe for the frontier-growth claim: one `set_cell_state` call
putting a live cell on the last row (local `(25, 49)`) of chunk `(0, 0)` of
an otherwise empty universe. -/
def uLastRow : Universe := Universe.new.set_cell_state (25, 49) true

/-- Test universe for the alive-count claim: one `set_cell_state` call
setting world cell `(0, 0)` live in an empty universe. -/
def uOneCell : Universe := Universe.new.set_cell_state (0, 0) true

/-- Test universe for the seam claim: a horizontal blinker at world cells
`(49, 49)`, `(50, 49)`, `(51, 49)`, placed by three `set_cell_state` calls;
it straddles the seam between chunks `(0, 0)` and `(1, 0)`. -/
def uBlinker : Universe :=
  ((Universe.new.set_cell_state (49, 49) true).set_cell_state
    (50, 49) true).set_cell_state (51, 49) true

/-- A 2 by 2 still-life block at world cells `(10, 10)`..`(11, 11)`. -/
def blockGrid : Grid :=
  fun x y => decide (((x : Nat) = 10 ∨ (x : Nat) = 11) ∧ ((y : Nat) = 10 ∨ (y : Nat) = 11))

/-- A chunk at `(0, 0)` holding the block in both generations, with accurate
alive counters (the state of the chunk at rest, after a tick). -/
def blockChunk : Chunk :=
  { pos := (0, 0)
    last_gen := blockGrid
    last_gen_alive := 4
    current_gen := blockGrid
    current_gen_alive := 4 }

/-- Test universe for the idempotent-pause claim: a single chunk containing
an isolated still-life block, with accurate counters. -/
def uBlock : Universe := ⟨[((0, 0), blockChunk)]⟩

/-- Accuracy of the per-chunk alive counter: `current_gen_alive` equals the
number of `true` cells of `current_gen`, for every chunk in the map. -/
def countersOK (u : Universe) : Prop :=
  ∀ k c, findChunk k u.chunks = some c → c.current_gen_alive = c.current_gen.count

def keysNodup (u : Universe) : Prop := (keysOf u.chunks).Nodup

/-- Every chunk holding a live cell has all eight neighboring chunk
coordinates present in the map. -/
def haloComplete (u : Universe) : Prop :=
  ∀ k c, findChunk k u.chunks = some c → 0 < c.current_gen_alive →
    ∀ d ∈ nbrOffsets, (findChunk (k.1 + d.1, k.2 + d.2) u.chunks).isSome = true

/-- The indicator of the 2 by 2 block at world cells `(10, 10)`..`(11, 11)`. -/
def blockIndicator (p : Int × Int) : Bool :=
  decide ((p.1 = 10 ∨ p.1 = 11) ∧ (p.2 = 10 ∨ p.2 = 11))

lemma tmod50_lower (x : Int) : -50 < x.tmod 50 := by
  cases x with
  | ofNat m =>
      have h := Int.tmod_nonneg (a := Int.ofNat m) 50 (Int.ofNat_nonneg m)
      omega
  | negSucc m =>
      have h : (Int.negSucc m).tmod 50 = -(((m + 1) % 50 : Nat) : Int) := rfl
      have h2 : (m + 1) % 50 < 50 := Nat.mod_lt _ (by norm_num)
      omega

lemma tmod50_upper (x : Int) : x.tmod 50 < 50 :=
  Int.tmod_lt_of_pos x (by norm_num)

/-- The local coordinate is exactly the mathematical (euclidean) remainder. -/
lemma localRaw_eq_emod (x : Int) : localRaw x = x % 50 := by
  unfold localRaw
  have hlo := tmod50_lower x
  have hhi := tmod50_upper x
  have hnn : (0 : Int) ≤ 50 + x.tmod 50 := by omega
  rw [Int.tmod_eq_emod hnn (by norm_num)]
  have hdecomp := Int.tmod_add_tdiv x 50
  have : 50 + x.tmod 50 = x + 50 * (1 - x.tdiv 50) := by ring_nf; omega
  rw [this, Int.add_mul_emod_self_left]

lemma localRaw_nonneg (x : Int) : 0 ≤ localRaw x := by
  rw [localRaw_eq_emod]; exact Int.emod_nonneg x (by norm_num)

lemma localRaw_lt (x : Int) : localRaw x < 50 := by
  rw [localRaw_eq_emod]; exact Int.emod_lt_of_pos x (by norm_num)

lemma localFin_val (x : Int) : ((localFin x : Fin 50) : Int) = x % 50 := by
  have h1 := localRaw_nonneg x
  simp only [localFin, localRaw_eq_emod] at *
  omega

/-- Decomposition of a world coordinate into chunk coordinate and local index. -/
lemma world_decomp (x : Int) : x = 50 * x.fdiv 50 + ((localFin x : Fin 50) : Int) := by
  rw [localFin_val, Int.fdiv_eq_ediv _ (by norm_num)]
  have := Int.ediv_add_emod x 50
  omega

lemma fdiv_of_block (c k : Int) (h0 : 0 ≤ k) (h1 : k < 50) : (50 * c + k).fdiv 50 = c := by
  rw [Int.fdiv_eq_ediv _ (by norm_num)]
  omega

lemma localFin_of_block (c : Int) (k : Fin 50) : localFin (50 * c + (k : Int)) = k := by
  apply Fin.ext
  have h := localFin_val (50 * c + (k : Int))
  have hk : (k : Int) < 50 := by exact_mod_cast k.2
  have hk0 : (0 : Int) ≤ (k : Int) := by positivity
  have h2 : (50 * c + (k : Int)) % 50 = (k : Int) := by omega
  omega

lemma Grid.get?_isSome (g : Grid) (x y : Int) (hx : 0 ≤ x ∧ x < 50) (hy : 0 ≤ y ∧ y < 50) :
    (g.get? x y).isSome = true := by
  simp [Grid.get?, hx, hy]

lemma get_neighbor_status?_isSome (c : Chunk) (nbrs : Fin 8 → Grid) (a b : Int)
    (h1 : -1 ≤ a) (h2 : a ≤ 50) (h3 : -1 ≤ b) (h4 : b ≤ 50) :
    (c.get_neighbor_status? nbrs (a, b)).isSome = true := by
  simp only [Chunk.get_neighbor_status?, Prod.mk.injEq]
  split_ifs with hc1 hc2 hc3 hc4 hc5 hc6 hc7 hc8 <;>
    apply Grid.get?_isSome <;> omega

/-- C4: with the eight neighbor snapshots ordered W, NW, N, NE, E, SE, S, SW
as `Universe::tick` assembles them, `get_neighbor_status` resolves each of
the four out-of-range corner queries to a single cell of a single diagonal
snapshot: `(-1, 50)` to NW (index 1) at `(49, 0)`, `(50, 50)` to NE (index
3) at `(0, 0)`, `(50, -1)` to SE (index 5) at `(0, 49)`, and `(-1, -1)` to
SW (index 7) at `(49, 49)` — never a blend of two edge neighbors. -/
theorem claim_C4 (c : Chunk) (nbrs : Fin 8 → Grid) :
    c.get_neighbor_status? nbrs (-1, 50) = some (nbrs 1 49 0) ∧
    c.get_neighbor_status? nbrs (50, 50) = some (nbrs 3 0 0) ∧
    c.get_neighbor_status? nbrs (50, -1) = some (nbrs 5 0 49) ∧
    c.get_neighbor_status? nbrs (-1, -1) = some (nbrs 7 49 49) :=
  ⟨rfl, rfl, rfl, rfl⟩

/-- C5: `Chunk::tick` applies the standard birth/survival rule to every
cell: the new `current_gen` value is `true` iff the cell was live in
`last_gen` with a neighbor count (resolved through the snapshots) of exactly
2 or 3, or dead with a count of exactly 3; every other combination yields
dead. -/
theorem claim_C5 (c : Chunk) (nbrs : Fin 8 → Grid) (x y : Fin 50) :
    (c.tick nbrs).current_gen x y = true ↔
      ((c.last_gen x y = true ∧
          (c.get_alive_neighbors nbrs ((x : Int), (y : Int)) = 2 ∨
           c.get_alive_neighbors nbrs ((x : Int), (y : Int)) = 3)) ∨
       (c.last_gen x y = false ∧ c.get_alive_neighbors nbrs ((x : Int), (y : Int)) = 3)) := by
  show lifeRule (c.last_gen x y) (c.get_alive_neighbors nbrs ((x : Int), (y : Int))) = true ↔ _
  cases h : c.last_gen x y <;> simp [lifeRule, h]

/-- C6 counterexample: the round trip fails at the valid `i32` chunk
coordinate `(43000000, 0)`, because `from_chunk_pos` saturates
`43000000 * 50` to `i32::MAX` and the round trip returns `(42949672, 0)`. -/
theorem claim_C6_counterexample :
    to_chunk_pos (from_chunk_pos (43000000, 0)) ≠ (43000000, 0) := by decide

/-- C6 (amended): for every pair of integer chunk coordinates whose
components lie in `[-42949672, 42949672]` — i.e. whenever `c * 50` does not
overflow `i32`, so the saturating cast is the identity —
`to_chunk_pos (from_chunk_pos c) = c`. -/
theorem claim_C6 (cx cy : Int)
    (hx1 : -42949672 ≤ cx) (hx2 : cx ≤ 42949672)
    (hy1 : -42949672 ≤ cy) (hy2 : cy ≤ 42949672) :
    to_chunk_pos (from_chunk_pos (cx, cy)) = (cx, cy) := by
  have sx : i32sat (cx * 50) = cx * 50 := by unfold i32sat i32min i32max; omega
  have sy : i32sat (cy * 50) = cy * 50 := by unfold i32sat i32min i32max; omega
  have dx : (cx * 50).fdiv 50 = cx := by
    rw [Int.fdiv_eq_ediv _ (by norm_num)]; omega
  have dy : (cy * 50).fdiv 50 = cy := by
    rw [Int.fdiv_eq_ediv _ (by norm_num)]; omega
  have tx : i32sat cx = cx := by unfold i32sat i32min i32max; omega
  have ty : i32sat cy = cy := by unfold i32sat i32min i32max; omega
  simp [from_chunk_pos, to_chunk_pos, sx, sy, dx, dy, tx, ty]

/-- Witness for C6 at the concrete chunk coordinate `(-1, -1)`. -/
theorem claim_C6_witness :
    (-42949672 ≤ (-1 : Int) ∧ (-1 : Int) ≤ 42949672) ∧
    to_chunk_pos (from_chunk_pos (-1, -1)) = (-1, -1) :=
  ⟨by norm_num, claim_C6 (-1) (-1) (by norm_num) (by norm_num) (by norm_num) (by norm_num)⟩

/-- C7: `to_chunk_pos ((-1, -1))` yields chunk `(-1, -1)` (mathematical
floor, not truncation); the local in-chunk coordinate computed for world
coordinate `-1` by `((50 + (coord mod 50)) mod 50)` is `49`; and for every
integer world coordinate the computed local coordinate lies in `[0, 50)`. -/
theorem claim_C7 :
    to_chunk_pos (-1, -1) = (-1, -1) ∧ localRaw (-1) = 49 ∧
    ∀ x : Int, 0 ≤ localRaw x ∧ localRaw x < 50 :=
  ⟨by decide, by decide, fun x => ⟨localRaw_nonneg x, localRaw_lt x⟩⟩

/-- C8: when the chunk of the queried world coordinate is absent from the
map, `get_cell_state` returns `false` (dead) and leaves the universe
completely unchanged — its body performs a lookup only and never inserts a
chunk. -/
theorem claim_C8 (u : Universe) (p : Int × Int)
    (h : findChunk (to_chunk_pos p) u.chunks = none) :
    u.get_cell_stateS p = (false, u) := by
  unfold Universe.get_cell_stateS
  rw [h]

/-- Witness for C8: reading world cell `(3, -7)` of the empty universe. -/
theorem claim_C8_witness :
    findChunk (to_chunk_pos (3, -7)) Universe.new.chunks = none ∧
    Universe.new.get_cell_stateS (3, -7) = (false, Universe.new) :=
  ⟨rfl, claim_C8 Universe.new (3, -7) rfl⟩

/-- C10: under `Chunk::tick`'s calling pattern (cell coordinates in
`[0, 50)` plus offsets of at most one), every position handed to
`get_neighbor_status` has both components in `[-1, 50]`, and the
boundary-resolution match succeeds on it with an in-range array access
(`isSome` of the checked embedding), so the out-of-range fatal case is
unreachable and `Chunk::tick` never panics on an index. -/
theorem claim_C10 (c : Chunk) (nbrs : Fin 8 → Grid) (x y : Fin 50) (d : Int × Int)
    (hd : d ∈ nbrOffsets) :
    (-1 ≤ (x : Int) + d.1 ∧ (x : Int) + d.1 ≤ 50 ∧ -1 ≤ (y : Int) + d.2 ∧ (y : Int) + d.2 ≤ 50) ∧
    (c.get_neighbor_status? nbrs ((x : Int) + d.1, (y : Int) + d.2)).isSome = true := by
  have hx1 : (0 : Int) ≤ (x : Int) := by positivity
  have hx2 : ((x : Int)) < 50 := by exact_mod_cast x.2
  have hy1 : (0 : Int) ≤ (y : Int) := by positivity
  have hy2 : ((y : Int)) < 50 := by exact_mod_cast y.2
  have hd' : (-1 ≤ d.1 ∧ d.1 ≤ 1) ∧ (-1 ≤ d.2 ∧ d.2 ≤ 1) := by
    simp only [nbrOffsets, List.mem_cons, List.not_mem_nil, or_false] at hd
    rcases hd with rfl | rfl | rfl | rfl | rfl | rfl | rfl | rfl <;> norm_num
  exact ⟨by omega,
    get_neighbor_status?_isSome c nbrs _ _ (by omega) (by omega) (by omega) (by omega)⟩

/-- Witness for C10: the west query from cell `(0, 0)` of a fresh chunk. -/
theorem claim_C10_witness :
    ((-1, 0) ∈ nbrOffsets) ∧
    (((0 : Fin 50) : Int) + (-1, 0).1 = -1) ∧
    ((Chunk.new (0, 0)).get_neighbor_status? (fun _ => Grid.allFalse)
        (((0 : Fin 50) : Int) + (-1, 0).1, ((0 : Fin 50) : Int) + (-1, 0).2)).isSome = true :=
  ⟨by decide, by decide,
    (claim_C10 (Chunk.new (0, 0)) (fun _ => Grid.allFalse) 0 0 (-1, 0) (by decide)).2⟩

/-- C1 (code bug): a live cell set on the last row (world `(25, 49)`, local
`(25, 49)` of chunk `(0, 0)`) of an otherwise empty universe does not cause
the neighboring chunk `(0, 1)` to be created by one `tick()` — the chunk map
still holds only `(0, 0)` — because `set_cell_state` writes the cell without
updating `current_gen_alive`, so the frontier-growth phase sees
`last_gen_alive = 0`.  The claim says the neighbor chunk exists after the
tick. -/
theorem claim_C1_failing :
    worldCur uLastRow (25, 49) = true ∧
    keysOf uLastRow.chunks = [(0, 0)] ∧
    keysOf (Universe.tick uLastRow).chunks = [(0, 0)] ∧
    findChunk (0, 1) (Universe.tick uLastRow).chunks = none :=
  ⟨by decide, by decide, by decide, rfl⟩

set_option maxRecDepth 4000 in
/-- C2 (code bug): after `set_cell_state` sets one cell live in a fresh
chunk, `current_gen_alive` is still `0` while `current_gen` holds one live
cell — `set_cell_state` does not maintain the counter, contradicting the
claimed invariant. -/
theorem claim_C2_failing :
    (findChunk (0, 0) uOneCell.chunks).map Chunk.current_gen_alive = some 0 ∧
    (findChunk (0, 0) uOneCell.chunks).map (fun c => c.current_gen.count) = some 1 :=
  ⟨by decide, by decide⟩

/-- C3 (code bug): a horizontal blinker at world `(49, 49)..(51, 49)`,
straddling the seam between chunks `(0, 0)` and `(1, 0)`, diverges from the
unsplit reference after one tick: the reference Conway step births cell
`(50, 50)`, but the chunked universe leaves it dead, because chunk `(1, 1)`
was never created (the counters of freshly edited chunks are zero, so
frontier growth is skipped on this tick and the birth is lost). -/
theorem claim_C3_failing :
    worldCur uBlinker (49, 49) = true ∧
    worldCur uBlinker (50, 49) = true ∧
    worldCur uBlinker (51, 49) = true ∧
    keysOf uBlinker.chunks = [(0, 0), (1, 0)] ∧
    conwayStep (worldCur uBlinker) (50, 50) = true ∧
    worldCur (Universe.tick uBlinker) (50, 50) = false :=
  ⟨by decide, by decide, by decide, by decide, by decide, by decide⟩

lemma findChunk_eq_none_iff (k : Int × Int) (m : ChunkMap) :
    findChunk k m = none ↔ k ∉ keysOf m := by
  induction m with
  | nil => simp [findChunk, keysOf]
  | cons kc rest ih =>
      by_cases h : kc.1 = k
      · simp [findChunk, keysOf, h]
      · simp [findChunk, keysOf, h, ih, Ne.symm h]

lemma findChunk_isSome_iff (k : Int × Int) (m : ChunkMap) :
    (findChunk k m).isSome = true ↔ k ∈ keysOf m := by
  rw [Option.isSome_iff_ne_none, ne_eq, findChunk_eq_none_iff]
  tauto

lemma findChunk_mem (k : Int × Int) (c : Chunk) (m : ChunkMap)
    (h : findChunk k m = some c) : (k, c) ∈ m := by
  induction m with
  | nil => simp [findChunk] at h
  | cons kc rest ih =>
      obtain ⟨k', c'⟩ := kc
      by_cases hk : k' = k
      · subst hk
        simp only [findChunk, if_pos] at h
        injection h with h'
        subst h'
        exact List.mem_cons_self _ _
      · simp only [findChunk, hk, if_neg, not_false_iff] at h
        exact List.mem_cons_of_mem _ (ih h)

lemma mem_findChunk_of_nodup (k : Int × Int) (c : Chunk) (m : ChunkMap)
    (hnd : (keysOf m).Nodup) (h : (k, c) ∈ m) : findChunk k m = some c := by
  induction m with
  | nil => simp at h
  | cons kc rest ih =>
      simp only [keysOf, List.map_cons, List.nodup_cons] at hnd
      rcases List.mem_cons.mp h with heq | hmem
      · subst heq
        simp [findChunk]
      · have hk : kc.1 ≠ k := by
          intro he
          exact hnd.1 (he ▸ (List.mem_map_of_mem Prod.fst hmem))
        simp only [findChunk, hk, if_neg, not_false_iff]
        exact ih hnd.2 hmem

lemma findChunk_map_values (f : (Int × Int) → Chunk → Chunk) (m : ChunkMap) (k : Int × Int) :
    findChunk k (m.map (fun kc => (kc.1, f kc.1 kc.2))) = (findChunk k m).map (f k) := by
  induction m with
  | nil => simp [findChunk]
  | cons kc rest ih =>
      by_cases h : kc.1 = k <;> simp [findChunk, h, ih]

lemma keysOf_map_values (f : (Int × Int) → Chunk → Chunk) (m : ChunkMap) :
    keysOf (m.map (fun kc => (kc.1, f kc.1 kc.2))) = keysOf m := by
  unfold keysOf
  rw [List.map_map]
  rfl

lemma findChunk_append_some (k : Int × Int) (a b : ChunkMap) (c : Chunk)
    (h : findChunk k a = some c) : findChunk k (a ++ b) = some c := by
  induction a with
  | nil => simp [findChunk] at h
  | cons kc rest ih => by_cases hk : kc.1 = k <;> simp_all [findChunk]

lemma findChunk_append_none (k : Int × Int) (a b : ChunkMap)
    (h : findChunk k a = none) : findChunk k (a ++ b) = findChunk k b := by
  induction a with
  | nil => simp [findChunk]
  | cons kc rest ih => by_cases hk : kc.1 = k <;> simp_all [findChunk]

lemma ensureChunk_of_isSome (m : ChunkMap) (k : Int × Int)
    (h : (findChunk k m).isSome = true) : ensureChunk m k = m := by
  unfold ensureChunk
  obtain ⟨c, hc⟩ := Option.isSome_iff_exists.mp h
  rw [hc]

lemma findChunk_ensure_of_some (m : ChunkMap) (k k' : Int × Int) (c : Chunk)
    (h : findChunk k m = some c) : findChunk k (ensureChunk m k') = some c := by
  unfold ensureChunk
  cases hf : findChunk k' m with
  | some c' => exact h
  | none => exact findChunk_append_some _ _ _ _ h

lemma findChunk_ensure_self_isSome (m : ChunkMap) (k : Int × Int) :
    (findChunk k (ensureChunk m k)).isSome = true := by
  unfold ensureChunk
  cases hf : findChunk k m with
  | some c' => simp [hf]
  | none =>
      rw [findChunk_append_none _ _ _ hf]
      simp [findChunk]

lemma findChunk_ensure_cases (m : ChunkMap) (k k' : Int × Int) (c : Chunk)
    (h : findChunk k (ensureChunk m k') = some c) :
    findChunk k m = some c ∨ (k = k' ∧ findChunk k m = none ∧ c = Chunk.new k') := by
  unfold ensureChunk at h
  cases hf : findChunk k' m with
  | some c' => rw [hf] at h; exact Or.inl h
  | none =>
      rw [hf] at h
      cases hk : findChunk k m with
      | some c2 =>
          rw [findChunk_append_some _ _ _ _ hk] at h
          injection h with h'
          exact Or.inl (h' ▸ rfl)
      | none =>
          rw [findChunk_append_none _ _ _ hk] at h
          by_cases he : k' = k
          · subst he
            simp only [findChunk, if_pos] at h
            injection h with h'
            exact Or.inr ⟨rfl, rfl, h'.symm⟩
          · simp [findChunk, he] at h

lemma keysOf_ensure_nodup (m : ChunkMap) (k : Int × Int)
    (hnd : (keysOf m).Nodup) : (keysOf (ensureChunk m k)).Nodup := by
  unfold ensureChunk
  cases hf : findChunk k m with
  | some c' => exact hnd
  | none =>
      have hk : k ∉ keysOf m := (findChunk_eq_none_iff _ _).mp hf
      unfold keysOf at *
      rw [List.map_append]
      simp [List.nodup_append, hnd, hk]

lemma findChunk_foldl_ensure_of_some (l : List (Int × Int)) (m : ChunkMap)
    (k : Int × Int) (c : Chunk) (h : findChunk k m = some c) :
    findChunk k (l.foldl ensureChunk m) = some c := by
  induction l generalizing m with
  | nil => exact h
  | cons x xs ih => exact ih _ (findChunk_ensure_of_some _ _ _ _ h)

lemma findChunk_foldl_ensure_mem (l : List (Int × Int)) (m : ChunkMap)
    (k : Int × Int) (h : k ∈ l) :
    (findChunk k (l.foldl ensureChunk m)).isSome = true := by
  induction l generalizing m with
  | nil => simp at h
  | cons x xs ih =>
      rcases List.mem_cons.mp h with heq | hmem
      · subst heq
        obtain ⟨c, hc⟩ := Option.isSome_iff_exists.mp (findChunk_ensure_self_isSome m k)
        simp only [List.foldl_cons]
        rw [findChunk_foldl_ensure_of_some _ _ _ _ hc]
        rfl
      · exact ih _ hmem

lemma findChunk_foldl_ensure_cases (l : List (Int × Int)) (m : ChunkMap)
    (k : Int × Int) (c : Chunk) (h : findChunk k (l.foldl ensureChunk m) = some c) :
    findChunk k m = some c ∨ (c = Chunk.new k ∧ findChunk k m = none ∧ k ∈ l) := by
  induction l generalizing m with
  | nil => exact Or.inl h
  | cons x xs ih =>
      simp only [List.foldl_cons] at h
      rcases ih _ h with h2 | ⟨hc, hn, hm⟩
      · rcases findChunk_ensure_cases _ _ _ _ h2 with h3 | ⟨he, hn, hc⟩
        · exact Or.inl h3
        · exact Or.inr ⟨by rw [hc, he], hn, by simp [he]⟩
      · cases hk : findChunk k m with
        | some c2 =>
            rw [findChunk_ensure_of_some _ _ _ _ hk] at hn
            cases hn
        | none => exact Or.inr ⟨hc, rfl, List.mem_cons_of_mem _ hm⟩

lemma keysOf_foldl_ensure_nodup (l : List (Int × Int)) (m : ChunkMap)
    (hnd : (keysOf m).Nodup) : (keysOf (l.foldl ensureChunk m)).Nodup := by
  induction l generalizing m with
  | nil => exact hnd
  | cons x xs ih => exact ih _ (keysOf_ensure_nodup _ _ hnd)

lemma foldl_ensure_all_present (l : List (Int × Int)) (m : ChunkMap)
    (h : ∀ k ∈ l, (findChunk k m).isSome = true) : l.foldl ensureChunk m = m := by
  induction l with
  | nil => rfl
  | cons x xs ih =>
      simp only [List.foldl_cons]
      rw [ensureChunk_of_isSome _ _ (h x (List.mem_cons_self _ _))]
      exact ih (fun k hk => h k (List.mem_cons_of_mem _ hk))

lemma foldl_append_shift {α β : Type} (g : α → List β) (p : α → Prop) [DecidablePred p]
    (m : List α) (acc : List β) :
    m.foldl (fun a x => if p x then a ++ g x else a) acc
      = acc ++ m.foldl (fun a x => if p x then a ++ g x else a) [] := by
  induction m generalizing acc with
  | nil => simp
  | cons kc rest ih =>
      simp only [List.foldl_cons]
      by_cases h : p kc
      · rw [if_pos h, if_pos h, List.nil_append, ih, ih (g kc), List.append_assoc]
      · rw [if_neg h, if_neg h, ih]

lemma mem_growList (m : ChunkMap) (x : Int × Int) :
    x ∈ growList m ↔
      ∃ kc ∈ m, kc.2.last_gen_alive > 0 ∧ ∃ d ∈ nbrOffsets, x = (kc.1.1 + d.1, kc.1.2 + d.2) := by
  unfold growList
  induction m with
  | nil => simp
  | cons kc rest ih =>
      simp only [List.foldl_cons]
      rw [foldl_append_shift
        (fun kc : (Int × Int) × Chunk => nbrOffsets.map (fun d => (kc.1.1 + d.1, kc.1.2 + d.2)))
        (fun kc : (Int × Int) × Chunk => kc.2.last_gen_alive > 0)]
      by_cases h : kc.2.last_gen_alive > 0
      · simp only [if_pos h, List.nil_append, List.mem_append, ih, List.mem_cons, List.mem_map]
        constructor
        · rintro (⟨d, hd, rfl⟩ | ⟨kc', hm, hp, d, hd, rfl⟩)
          · exact ⟨kc, Or.inl rfl, h, d, hd, rfl⟩
          · exact ⟨kc', Or.inr hm, hp, d, hd, rfl⟩
        · rintro ⟨kc', hor, hp, d, hd, rfl⟩
          rcases hor with rfl | hm
          · exact Or.inl ⟨d, hd, rfl⟩
          · exact Or.inr ⟨kc', hm, hp, d, hd, rfl⟩
      · simp only [if_neg h, List.nil_append, ih, List.mem_cons]
        constructor
        · rintro ⟨kc', hm, hp, d, hd, rfl⟩
          exact ⟨kc', Or.inr hm, hp, d, hd, rfl⟩
        · rintro ⟨kc', hor, hp, d, hd, rfl⟩
          rcases hor with rfl | hm
          · exact absurd hp h
          · exact ⟨kc', hm, hp, d, hd, rfl⟩

lemma countRow_nonneg (g : Grid) (x : Fin 50) (n : Nat) : 0 ≤ Grid.countRow g x n := by
  induction n with
  | zero => simp [Grid.countRow]
  | succ j ih =>
      simp only [Grid.countRow]
      split_ifs with h
      · cases hg : g x ⟨j, h⟩ <;> simp [hg] <;> omega
      · omega

lemma countRows_nonneg (g : Grid) (n : Nat) : 0 ≤ Grid.countRows g n := by
  induction n with
  | zero => simp [Grid.countRows]
  | succ i ih =>
      simp only [Grid.countRows]
      split_ifs with h
      · have := countRow_nonneg g ⟨i, h⟩ 50
        omega
      · omega

lemma countRow_pos (g : Grid) (x : Fin 50) (j : Fin 50) (hg : g x j = true)
    (n : Nat) (hn : (j : Nat) < n) : 0 < Grid.countRow g x n := by
  induction n with
  | zero => omega
  | succ jj ih =>
      simp only [Grid.countRow]
      rcases Nat.lt_succ_iff_lt_or_eq.mp hn with hlt | heq
      · have h1 := ih hlt
        split_ifs with h
        · cases hg2 : g x ⟨jj, h⟩ <;> simp [hg2] <;> omega
        · omega
      · have hj : (⟨jj, by omega⟩ : Fin 50) = j := by
          apply Fin.ext
          simp [heq]
        rw [dif_pos (by omega : jj < 50)]
        have h2 := countRow_nonneg g x jj
        rw [show (⟨jj, by omega⟩ : Fin 50) = j from hj, hg]
        simp
        omega

lemma countRows_pos (g : Grid) (i j : Fin 50) (hg : g i j = true)
    (n : Nat) (hn : (i : Nat) < n) : 0 < Grid.countRows g n := by
  induction n with
  | zero => omega
  | succ ii ih =>
      simp only [Grid.countRows]
      rcases Nat.lt_succ_iff_lt_or_eq.mp hn with hlt | heq
      · have h1 := ih hlt
        split_ifs with h
        · have := countRow_nonneg g ⟨ii, h⟩ 50
          omega
        · omega
      · have hi : (⟨ii, by omega⟩ : Fin 50) = i := by
          apply Fin.ext
          simp [heq]
        rw [dif_pos (by omega : ii < 50)]
        have h2 := countRows_nonneg g ii
        have h3 : 0 < Grid.countRow g ⟨ii, by omega⟩ 50 := by
          rw [show (⟨ii, by omega⟩ : Fin 50) = i from hi]
          exact countRow_pos g i j hg 50 j.2
        omega

lemma count_pos_of_true (g : Grid) (i j : Fin 50) (hg : g i j = true) : 0 < g.count :=
  countRows_pos g i j hg 50 i.2

lemma countRow_eq_zero_of_false (g : Grid) (x : Fin 50) (hg : ∀ j, g x j = false)
    (n : Nat) : Grid.countRow g x n = 0 := by
  induction n with
  | zero => rfl
  | succ j ih =>
      simp only [Grid.countRow, ih]
      split_ifs with h
      · rw [hg ⟨j, h⟩]
        rfl
      · rfl

lemma count_eq_zero_of_all_false (g : Grid) (hg : ∀ i j, g i j = false) : g.count = 0 := by
  show Grid.countRows g 50 = 0
  have hrow : ∀ (i : Fin 50), Grid.countRow g i 50 = 0 :=
    fun i => countRow_eq_zero_of_false g i (hg i) 50
  induction (50 : Nat) with
  | zero => rfl
  | succ ii ih =>
      simp only [Grid.countRows, ih]
      split_ifs with h
      · rw [hrow ⟨ii, h⟩]
        rfl
      · rfl

lemma exists_true_of_count_pos (g : Grid) (h : 0 < g.count) : ∃ i j, g i j = true := by
  by_contra hall
  push_neg at hall
  have : ∀ i j, g i j = false := by
    intro i j
    cases hgv : g i j
    · rfl
    · exact absurd hgv (hall i j)
  rw [count_eq_zero_of_all_false g this] at h
  exact absurd h (by norm_num)

lemma localFin_coord (cx a : Int) (ha : 0 ≤ a) (ha' : a < 50) :
    localFin (50 * cx + a) = ⟨a.toNat, by omega⟩ := by
  apply Fin.ext
  show (localFin (50 * cx + a)).val = a.toNat
  have h := localFin_val (50 * cx + a)
  have h2 : (50 * cx + a) % 50 = a := by omega
  rw [h2] at h
  omega

lemma worldLastM_coord (m : ChunkMap) (cx cy a b : Int)
    (ha : 0 ≤ a) (ha' : a < 50) (hb : 0 ≤ b) (hb' : b < 50) :
    worldLastM m (50 * cx + a, 50 * cy + b)
      = ((findChunk (cx, cy) m).map Chunk.last_gen).getD Grid.allFalse
          ⟨a.toNat, by omega⟩ ⟨b.toNat, by omega⟩ := by
  unfold worldLastM
  simp only [fdiv_of_block cx a ha ha', fdiv_of_block cy b hb hb',
    localFin_coord cx a ha ha', localFin_coord cy b hb hb']
  cases findChunk (cx, cy) m <;> simp [Grid.allFalse]

lemma worldCur_coord (u : Universe) (cx cy a b : Int)
    (ha : 0 ≤ a) (ha' : a < 50) (hb : 0 ≤ b) (hb' : b < 50) :
    worldCur u (50 * cx + a, 50 * cy + b)
      = ((findChunk (cx, cy) u.chunks).map Chunk.current_gen).getD Grid.allFalse
          ⟨a.toNat, by omega⟩ ⟨b.toNat, by omega⟩ := by
  unfold worldCur
  simp only [fdiv_of_block cx a ha ha', fdiv_of_block cy b hb hb',
    localFin_coord cx a ha ha', localFin_coord cy b hb hb']
  cases findChunk (cx, cy) u.chunks <;> simp [Grid.allFalse]

lemma gns_corner_nw (m : ChunkMap) (k : Int × Int) (c : Chunk) :
    c.get_neighbor_status (nbrGrids (snapOf m) k) (-1, 50)
      = worldLastM m (50 * k.1 + (-1), 50 * k.2 + 50) := by
  have e1 : (50 * k.1 + (-1 : Int)) = 50 * (k.1 - 1) + 49 := by ring
  have e2 : (50 * k.2 + (50 : Int)) = 50 * (k.2 + 1) + 0 := by ring
  rw [e1, e2,
    worldLastM_coord m (k.1 - 1) (k.2 + 1) 49 0 (by norm_num) (by norm_num) (by norm_num)
      (by norm_num)]
  have e3 : (k.1 + (-1 : Int), k.2 + (1 : Int)) = (k.1 - 1, k.2 + 1) := by
    rw [Prod.mk.injEq]
    omega
  simp only [Chunk.get_neighbor_status, Chunk.get_neighbor_status?, if_pos rfl, nbrGrids,
    nbrOffsets, List.getD, snapOf, Grid.get?]
  norm_num [e3]

lemma gns_corner_ne (m : ChunkMap) (k : Int × Int) (c : Chunk) :
    c.get_neighbor_status (nbrGrids (snapOf m) k) (50, 50)
      = worldLastM m (50 * k.1 + 50, 50 * k.2 + 50) := by
  have e1 : (50 * k.1 + (50 : Int)) = 50 * (k.1 + 1) + 0 := by ring
  have e2 : (50 * k.2 + (50 : Int)) = 50 * (k.2 + 1) + 0 := by ring
  rw [e1, e2,
    worldLastM_coord m (k.1 + 1) (k.2 + 1) 0 0 (by norm_num) (by norm_num) (by norm_num)
      (by norm_num)]
  have c1 : ((50 : Int), (50 : Int)) ≠ (-1, 50) := by
    intro h; rw [Prod.mk.injEq] at h; omega
  simp only [Chunk.get_neighbor_status, Chunk.get_neighbor_status?, if_neg c1, if_pos rfl,
    nbrGrids, snapOf, Grid.get?]
  rw [show nbrOffsets.getD ((3 : Fin 8)).1 (0, 0) = ((1 : Int), (1 : Int)) from rfl]
  norm_num

lemma gns_corner_se (m : ChunkMap) (k : Int × Int) (c : Chunk) :
    c.get_neighbor_status (nbrGrids (snapOf m) k) (50, -1)
      = worldLastM m (50 * k.1 + 50, 50 * k.2 + (-1)) := by
  have e1 : (50 * k.1 + (50 : Int)) = 50 * (k.1 + 1) + 0 := by ring
  have e2 : (50 * k.2 + (-1 : Int)) = 50 * (k.2 - 1) + 49 := by ring
  rw [e1, e2,
    worldLastM_coord m (k.1 + 1) (k.2 - 1) 0 49 (by norm_num) (by norm_num) (by norm_num)
      (by norm_num)]
  have c1 : ((50 : Int), (-1 : Int)) ≠ (-1, 50) := by
    intro h; rw [Prod.mk.injEq] at h; omega
  have c2 : ((50 : Int), (-1 : Int)) ≠ (50, 50) := by
    intro h; rw [Prod.mk.injEq] at h; omega
  simp only [Chunk.get_neighbor_status, Chunk.get_neighbor_status?, if_neg c1, if_neg c2,
    if_pos rfl, nbrGrids, snapOf, Grid.get?]
  rw [show nbrOffsets.getD ((5 : Fin 8)).1 (0, 0) = ((1 : Int), (-1 : Int)) from rfl,
    show (k.1 + (1 : Int), k.2 + (-1 : Int)) = (k.1 + 1, k.2 - 1) from by
      rw [Prod.mk.injEq]; omega]
  norm_num

lemma gns_corner_sw (m : ChunkMap) (k : Int × Int) (c : Chunk) :
    c.get_neighbor_status (nbrGrids (snapOf m) k) (-1, -1)
      = worldLastM m (50 * k.1 + (-1), 50 * k.2 + (-1)) := by
  have e1 : (50 * k.1 + (-1 : Int)) = 50 * (k.1 - 1) + 49 := by ring
  have e2 : (50 * k.2 + (-1 : Int)) = 50 * (k.2 - 1) + 49 := by ring
  rw [e1, e2,
    worldLastM_coord m (k.1 - 1) (k.2 - 1) 49 49 (by norm_num) (by norm_num) (by norm_num)
      (by norm_num)]
  have c1 : ((-1 : Int), (-1 : Int)) ≠ (-1, 50) := by
    intro h; rw [Prod.mk.injEq] at h; omega
  have c2 : ((-1 : Int), (-1 : Int)) ≠ (50, 50) := by
    intro h; rw [Prod.mk.injEq] at h; omega
  have c3 : ((-1 : Int), (-1 : Int)) ≠ (50, -1) := by
    intro h; rw [Prod.mk.injEq] at h; omega
  simp only [Chunk.get_neighbor_status, Chunk.get_neighbor_status?, if_neg c1, if_neg c2,
    if_neg c3, if_pos rfl, nbrGrids, snapOf, Grid.get?]
  rw [show nbrOffsets.getD ((7 : Fin 8)).1 (0, 0) = ((-1 : Int), (-1 : Int)) from rfl,
    show (k.1 + (-1 : Int), k.2 + (-1 : Int)) = (k.1 - 1, k.2 - 1) from by
      rw [Prod.mk.injEq]; omega]
  norm_num

lemma gns_edge_w (m : ChunkMap) (k : Int × Int) (c : Chunk) (b : Int)
    (hb : 0 ≤ b) (hb' : b < 50) :
    c.get_neighbor_status (nbrGrids (snapOf m) k) (-1, b)
      = worldLastM m (50 * k.1 + (-1), 50 * k.2 + b) := by
  have e1 : (50 * k.1 + (-1 : Int)) = 50 * (k.1 - 1) + 49 := by ring
  rw [e1, worldLastM_coord m (k.1 - 1) k.2 49 b (by norm_num) (by norm_num) hb hb']
  have c1 : ((-1 : Int), b) ≠ (-1, 50) := by
    intro h; rw [Prod.mk.injEq] at h; omega
  have c2 : ((-1 : Int), b) ≠ (50, 50) := by
    intro h; rw [Prod.mk.injEq] at h; omega
  have c3 : ((-1 : Int), b) ≠ (50, -1) := by
    intro h; rw [Prod.mk.injEq] at h; omega
  have c4 : ((-1 : Int), b) ≠ (-1, -1) := by
    intro h; rw [Prod.mk.injEq] at h; omega
  simp only [Chunk.get_neighbor_status, Chunk.get_neighbor_status?, if_neg c1, if_neg c2,
    if_neg c3, if_neg c4, if_pos rfl, nbrGrids, snapOf, Grid.get?]
  rw [show nbrOffsets.getD ((0 : Fin 8)).1 (0, 0) = ((-1 : Int), (0 : Int)) from rfl,
    show (k.1 + (-1 : Int), k.2 + (0 : Int)) = (k.1 - 1, k.2) from by
      rw [Prod.mk.injEq]; omega]
  rw [dif_pos (by norm_num : (0 : Int) ≤ 49 ∧ (49 : Int) < 50), dif_pos ⟨hb, hb'⟩]
  norm_num

lemma gns_edge_n (m : ChunkMap) (k : Int × Int) (c : Chunk) (a : Int)
    (ha : 0 ≤ a) (ha' : a < 50) :
    c.get_neighbor_status (nbrGrids (snapOf m) k) (a, 50)
      = worldLastM m (50 * k.1 + a, 50 * k.2 + 50) := by
  have e2 : (50 * k.2 + (50 : Int)) = 50 * (k.2 + 1) + 0 := by ring
  rw [e2, worldLastM_coord m k.1 (k.2 + 1) a 0 ha ha' (by norm_num) (by norm_num)]
  have c1 : (a, (50 : Int)) ≠ (-1, 50) := by
    intro h; rw [Prod.mk.injEq] at h; omega
  have c2 : (a, (50 : Int)) ≠ (50, 50) := by
    intro h; rw [Prod.mk.injEq] at h; omega
  have c3 : (a, (50 : Int)) ≠ (50, -1) := by
    intro h; rw [Prod.mk.injEq] at h; omega
  have c4 : (a, (50 : Int)) ≠ (-1, -1) := by
    intro h; rw [Prod.mk.injEq] at h; omega
  have c5 : ¬((a, (50 : Int)).1 = -1) := by
    intro h; simp at h; omega
  simp only [Chunk.get_neighbor_status, Chunk.get_neighbor_status?, if_neg c1, if_neg c2,
    if_neg c3, if_neg c4, if_neg c5, if_pos rfl, nbrGrids, snapOf, Grid.get?]
  rw [show nbrOffsets.getD ((2 : Fin 8)).1 (0, 0) = ((0 : Int), (1 : Int)) from rfl,
    show (k.1 + (0 : Int), k.2 + (1 : Int)) = (k.1, k.2 + 1) from by
      rw [Prod.mk.injEq]; omega]
  rw [dif_pos ⟨ha, ha'⟩]
  norm_num

lemma gns_edge_e (m : ChunkMap) (k : Int × Int) (c : Chunk) (b : Int)
    (hb : 0 ≤ b) (hb' : b < 50) :
    c.get_neighbor_status (nbrGrids (snapOf m) k) (50, b)
      = worldLastM m (50 * k.1 + 50, 50 * k.2 + b) := by
  have e1 : (50 * k.1 + (50 : Int)) = 50 * (k.1 + 1) + 0 := by ring
  rw [e1, worldLastM_coord m (k.1 + 1) k.2 0 b (by norm_num) (by norm_num) hb hb']
  have c1 : ((50 : Int), b) ≠ (-1, 50) := by
    intro h; rw [Prod.mk.injEq] at h; omega
  have c2 : ((50 : Int), b) ≠ (50, 50) := by
    intro h; rw [Prod.mk.injEq] at h; omega
  have c3 : ((50 : Int), b) ≠ (50, -1) := by
    intro h; rw [Prod.mk.injEq] at h; omega
  have c4 : ((50 : Int), b) ≠ (-1, -1) := by
    intro h; rw [Prod.mk.injEq] at h; omega
  have c5 : ¬(((50 : Int), b).1 = -1) := by
    intro h; simp at h
  have c6 : ¬(((50 : Int), b).2 = 50) := by
    intro h; simp at h; omega
  simp only [Chunk.get_neighbor_status, Chunk.get_neighbor_status?, if_neg c1, if_neg c2,
    if_neg c3, if_neg c4, if_neg c5, if_neg c6, if_pos rfl, nbrGrids, snapOf, Grid.get?]
  rw [show nbrOffsets.getD ((4 : Fin 8)).1 (0, 0) = ((1 : Int), (0 : Int)) from rfl,
    show (k.1 + (1 : Int), k.2 + (0 : Int)) = (k.1 + 1, k.2) from by
      rw [Prod.mk.injEq]; omega]
  rw [dif_pos (by norm_num : (0 : Int) ≤ 0 ∧ (0 : Int) < 50), dif_pos ⟨hb, hb'⟩]
  norm_num

lemma gns_edge_s (m : ChunkMap) (k : Int × Int) (c : Chunk) (a : Int)
    (ha : 0 ≤ a) (ha' : a < 50) :
    c.get_neighbor_status (nbrGrids (snapOf m) k) (a, -1)
      = worldLastM m (50 * k.1 + a, 50 * k.2 + (-1)) := by
  have e2 : (50 * k.2 + (-1 : Int)) = 50 * (k.2 - 1) + 49 := by ring
  rw [e2, worldLastM_coord m k.1 (k.2 - 1) a 49 ha ha' (by norm_num) (by norm_num)]
  have c1 : (a, (-1 : Int)) ≠ (-1, 50) := by
    intro h; rw [Prod.mk.injEq] at h; omega
  have c2 : (a, (-1 : Int)) ≠ (50, 50) := by
    intro h; rw [Prod.mk.injEq] at h; omega
  have c3 : (a, (-1 : Int)) ≠ (50, -1) := by
    intro h; rw [Prod.mk.injEq] at h; omega
  have c4 : (a, (-1 : Int)) ≠ (-1, -1) := by
    intro h; rw [Prod.mk.injEq] at h; omega
  have c5 : ¬((a, (-1 : Int)).1 = -1) := by
    intro h; simp at h; omega
  have c6 : ¬((a, (-1 : Int)).2 = 50) := by
    intro h; simp at h
  have c7 : ¬((a, (-1 : Int)).1 = 50) := by
    intro h; simp at h; omega
  simp only [Chunk.get_neighbor_status, Chunk.get_neighbor_status?, if_neg c1, if_neg c2,
    if_neg c3, if_neg c4, if_neg c5, if_neg c6, if_neg c7, if_pos rfl, nbrGrids, snapOf,
    Grid.get?]
  rw [show nbrOffsets.getD ((6 : Fin 8)).1 (0, 0) = ((0 : Int), (-1 : Int)) from rfl,
    show (k.1 + (0 : Int), k.2 + (-1 : Int)) = (k.1, k.2 - 1) from by
      rw [Prod.mk.injEq]; omega]
  rw [dif_pos ⟨ha, ha'⟩]
  norm_num

lemma gns_center (m : ChunkMap) (k : Int × Int) (c : Chunk)
    (hc : findChunk k m = some c) (a b : Int)
    (ha : 0 ≤ a) (ha' : a < 50) (hb : 0 ≤ b) (hb' : b < 50) :
    c.get_neighbor_status (nbrGrids (snapOf m) k) (a, b)
      = worldLastM m (50 * k.1 + a, 50 * k.2 + b) := by
  rw [worldLastM_coord m k.1 k.2 a b ha ha' hb hb']
  have hk : (k.1, k.2) = k := rfl
  rw [hk, hc]
  have c1 : (a, b) ≠ (-1, 50) := by
    intro h; rw [Prod.mk.injEq] at h; omega
  have c2 : (a, b) ≠ (50, 50) := by
    intro h; rw [Prod.mk.injEq] at h; omega
  have c3 : (a, b) ≠ (50, -1) := by
    intro h; rw [Prod.mk.injEq] at h; omega
  have c4 : (a, b) ≠ (-1, -1) := by
    intro h; rw [Prod.mk.injEq] at h; omega
  have c5 : ¬((a, b).1 = -1) := by
    intro h; simp at h; omega
  have c6 : ¬((a, b).2 = 50) := by
    intro h; simp at h; omega
  have c7 : ¬((a, b).1 = 50) := by
    intro h; simp at h; omega
  have c8 : ¬((a, b).2 = -1) := by
    intro h; simp at h; omega
  simp only [Chunk.get_neighbor_status, Chunk.get_neighbor_status?, if_neg c1, if_neg c2,
    if_neg c3, if_neg c4, if_neg c5, if_neg c6, if_neg c7, if_neg c8, Grid.get?]
  rw [dif_pos ⟨ha, ha'⟩, dif_pos ⟨hb, hb'⟩]
  norm_num

/-- Seam correctness of the boundary resolution: for a chunk present in the
map, any neighbor query within the `[-1, 50]` band resolves to exactly the
previous-generation world field at the corresponding world position. -/
lemma gns_correct (m : ChunkMap) (k : Int × Int) (c : Chunk)
    (hc : findChunk k m = some c) (a b : Int)
    (h1 : -1 ≤ a) (h2 : a ≤ 50) (h3 : -1 ≤ b) (h4 : b ≤ 50) :
    c.get_neighbor_status (nbrGrids (snapOf m) k) (a, b)
      = worldLastM m (50 * k.1 + a, 50 * k.2 + b) := by
  have ha : a = -1 ∨ a = 50 ∨ (0 ≤ a ∧ a < 50) := by omega
  have hb : b = -1 ∨ b = 50 ∨ (0 ≤ b ∧ b < 50) := by omega
  rcases ha with rfl | rfl | ⟨ha1, ha2⟩ <;> rcases hb with rfl | rfl | ⟨hb1, hb2⟩
  · exact gns_corner_sw m k c
  · exact gns_corner_nw m k c
  · exact gns_edge_w m k c b hb1 hb2
  · exact gns_corner_se m k c
  · exact gns_corner_ne m k c
  · exact gns_edge_e m k c b hb1 hb2
  · exact gns_edge_s m k c a ha1 ha2
  · exact gns_edge_n m k c a ha1 ha2
  · exact gns_center m k c hc a b ha1 ha2 hb1 hb2

lemma lifeRule_eq_spec (a : Bool) (n : Int) :
    lifeRule a n = if a then decide (n = 2 ∨ n = 3) else decide (n = 3) := by
  cases a <;> simp [lifeRule]

lemma get_alive_neighbors_correct (m : ChunkMap) (k : Int × Int) (c : Chunk)
    (hc : findChunk k m = some c) (i j : Fin 50) :
    c.get_alive_neighbors (nbrGrids (snapOf m) k) ((i : Int), (j : Int))
      = neighborCount (worldLastM m) (50 * k.1 + (i : Int), 50 * k.2 + (j : Int)) := by
  have hi : (0 : Int) ≤ (i : Int) := by positivity
  have hi' : ((i : Int)) < 50 := by exact_mod_cast i.2
  have hj : (0 : Int) ≤ (j : Int) := by positivity
  have hj' : ((j : Int)) < 50 := by exact_mod_cast j.2
  have hbase : ∀ d1 d2 : Int, -1 ≤ d1 → d1 ≤ 1 → -1 ≤ d2 → d2 ≤ 1 →
      c.get_neighbor_status (nbrGrids (snapOf m) k) ((i : Int) + d1, (j : Int) + d2)
        = worldLastM m (50 * k.1 + (i : Int) + d1, 50 * k.2 + (j : Int) + d2) := by
    intro d1 d2 hd1 hd1' hd2 hd2'
    have h := gns_correct m k c hc ((i : Int) + d1) ((j : Int) + d2)
      (by omega) (by omega) (by omega) (by omega)
    rw [h, show 50 * k.1 + ((i : Int) + d1) = 50 * k.1 + (i : Int) + d1 from by ring,
      show 50 * k.2 + ((j : Int) + d2) = 50 * k.2 + (j : Int) + d2 from by ring]
  simp only [Chunk.get_alive_neighbors, neighborCount, nbrOffsets, List.foldl_cons,
    List.foldl_nil]
  rw [hbase (-1) 0 (by norm_num) (by norm_num) (by norm_num) (by norm_num),
    hbase (-1) 1 (by norm_num) (by norm_num) (by norm_num) (by norm_num),
    hbase 0 1 (by norm_num) (by norm_num) (by norm_num) (by norm_num),
    hbase 1 1 (by norm_num) (by norm_num) (by norm_num) (by norm_num),
    hbase 1 0 (by norm_num) (by norm_num) (by norm_num) (by norm_num),
    hbase 1 (-1) (by norm_num) (by norm_num) (by norm_num) (by norm_num),
    hbase 0 (-1) (by norm_num) (by norm_num) (by norm_num) (by norm_num),
    hbase (-1) (-1) (by norm_num) (by norm_num) (by norm_num) (by norm_num)]

lemma worldLastM_self (m : ChunkMap) (k : Int × Int) (c : Chunk)
    (hc : findChunk k m = some c) (i j : Fin 50) :
    worldLastM m (50 * k.1 + (i : Int), 50 * k.2 + (j : Int)) = c.last_gen i j := by
  have h := worldLastM_coord m k.1 k.2 (i : Int) (j : Int) (by positivity)
    (by exact_mod_cast i.2) (by positivity) (by exact_mod_cast j.2)
  rw [show ((k.1, k.2) : Int × Int) = k from rfl] at h
  rw [h, hc]
  show c.last_gen _ _ = c.last_gen i j
  congr 1

lemma tick_cell (m : ChunkMap) (k : Int × Int) (c : Chunk)
    (hc : findChunk k m = some c) (i j : Fin 50) :
    (c.tick (nbrGrids (snapOf m) k)).current_gen i j
      = conwayStep (worldLastM m) (50 * k.1 + (i : Int), 50 * k.2 + (j : Int)) := by
  show lifeRule (c.last_gen i j)
      (c.get_alive_neighbors (nbrGrids (snapOf m) k) ((i : Int), (j : Int))) = _
  rw [get_alive_neighbors_correct m k c hc i j]
  unfold conwayStep
  rw [worldLastM_self m k c hc i j, lifeRule_eq_spec]


lemma findChunk_prepareAll (m : ChunkMap) (k : Int × Int) :
    findChunk k (prepareAll m) = (findChunk k m).map Chunk.prepare_tick :=
  findChunk_map_values (fun _ c => c.prepare_tick) m k

lemma keysOf_prepareAll (m : ChunkMap) : keysOf (prepareAll m) = keysOf m :=
  keysOf_map_values (fun _ c => c.prepare_tick) m

lemma findChunk_tickAll (m : ChunkMap) (k : Int × Int) :
    findChunk k (tickAll m)
      = (findChunk k m).map (fun c => c.tick (nbrGrids (snapOf m) k)) :=
  findChunk_map_values (fun k' c => c.tick (nbrGrids (snapOf m) k')) m k

lemma keysOf_tickAll (m : ChunkMap) : keysOf (tickAll m) = keysOf m :=
  keysOf_map_values (fun k' c => c.tick (nbrGrids (snapOf m) k')) m

lemma tick_chunks_eq (u : Universe) :
    (Universe.tick u).chunks = tickAll (growChunks (prepareAll u.chunks)) := rfl

lemma worldLastM_prepareAll (m : ChunkMap) (p : Int × Int) :
    worldLastM (prepareAll m) p = worldCur ⟨m⟩ p := by
  unfold worldLastM worldCur
  rw [findChunk_prepareAll]
  cases findChunk (p.1.fdiv 50, p.2.fdiv 50) m <;> simp [Chunk.prepare_tick]

lemma worldLastM_growChunks (m : ChunkMap) (p : Int × Int) :
    worldLastM (growChunks m) p = worldLastM m p := by
  unfold worldLastM growChunks
  cases h : findChunk (p.1.fdiv 50, p.2.fdiv 50) m with
  | some c => rw [findChunk_foldl_ensure_of_some _ _ _ _ h]
  | none =>
      cases h2 : findChunk (p.1.fdiv 50, p.2.fdiv 50) ((growList m).foldl ensureChunk m) with
      | none => rfl
      | some c2 =>
          rcases findChunk_foldl_ensure_cases _ _ _ _ h2 with h3 | ⟨hc2, _, _⟩
          · rw [h3] at h
            cases h
          · rw [hc2]
            simp [Chunk.new, Grid.allFalse]

lemma worldLast_grown_eq_worldCur (u : Universe) :
    worldLastM (growChunks (prepareAll u.chunks)) = worldCur u := by
  funext p
  rw [worldLastM_growChunks, worldLastM_prepareAll]

lemma grown_current_zero (m : ChunkMap) (k : Int × Int) (c : Chunk)
    (h : findChunk k (growChunks (prepareAll m)) = some c) : c.current_gen_alive = 0 := by
  unfold growChunks at h
  rcases findChunk_foldl_ensure_cases _ _ _ _ h with h2 | ⟨hc, _, _⟩
  · rw [findChunk_prepareAll] at h2
    cases hm : findChunk k m with
    | none => rw [hm] at h2; cases h2
    | some c0 =>
        rw [hm] at h2
        injection h2 with h3
        rw [← h3]
        rfl
  · rw [hc]
    rfl

lemma tick_current_gen (c : Chunk) (nbrs : Fin 8 → Grid) :
    (c.tick nbrs).current_gen
      = fun x y => lifeRule (c.last_gen x y)
          (c.get_alive_neighbors nbrs ((x : Int), (y : Int))) := rfl

lemma tick_current_alive (c : Chunk) (nbrs : Fin 8 → Grid) :
    (c.tick nbrs).current_gen_alive
      = c.current_gen_alive + Grid.count (c.tick nbrs).current_gen := rfl

lemma countersOK_tick (u : Universe) : countersOK (Universe.tick u) := by
  intro k c h
  rw [tick_chunks_eq, findChunk_tickAll] at h
  cases hg : findChunk k (growChunks (prepareAll u.chunks)) with
  | none => rw [hg] at h; cases h
  | some c0 =>
      rw [hg] at h
      injection h with h2
      rw [← h2, tick_current_alive, grown_current_zero _ _ _ hg]
      ring

lemma keysNodup_tick (u : Universe) (h : keysNodup u) : keysNodup (Universe.tick u) := by
  unfold keysNodup at *
  rw [tick_chunks_eq, keysOf_tickAll]
  unfold growChunks
  apply keysOf_foldl_ensure_nodup
  rw [keysOf_prepareAll]
  exact h

lemma fdiv_near (x d : Int) (h1 : -1 ≤ d) (h2 : d ≤ 1) :
    x.fdiv 50 - 1 ≤ (x + d).fdiv 50 ∧ (x + d).fdiv 50 ≤ x.fdiv 50 + 1 := by
  rw [Int.fdiv_eq_ediv _ (by norm_num), Int.fdiv_eq_ediv _ (by norm_num)]
  omega

lemma mem_nbrOffsets_of_small (e1 e2 : Int) (h1 : -1 ≤ e1) (h2 : e1 ≤ 1)
    (h3 : -1 ≤ e2) (h4 : e2 ≤ 1) (hne : ¬(e1 = 0 ∧ e2 = 0)) :
    (e1, e2) ∈ nbrOffsets := by
  have he1 : e1 = -1 ∨ e1 = 0 ∨ e1 = 1 := by omega
  have he2 : e2 = -1 ∨ e2 = 0 ∨ e2 = 1 := by omega
  rcases he1 with rfl | rfl | rfl <;> rcases he2 with rfl | rfl | rfl <;>
    simp [nbrOffsets] at hne ⊢

lemma neighborCount_zero (w : Int × Int → Bool) (p : Int × Int)
    (h : ∀ d ∈ nbrOffsets, w (p.1 + d.1, p.2 + d.2) = false) :
    neighborCount w p = 0 := by
  simp only [neighborCount, nbrOffsets, List.foldl_cons, List.foldl_nil]
  rw [h (-1, 0) (by simp [nbrOffsets]), h (-1, 1) (by simp [nbrOffsets]),
    h (0, 1) (by simp [nbrOffsets]), h (1, 1) (by simp [nbrOffsets]),
    h (1, 0) (by simp [nbrOffsets]), h (1, -1) (by simp [nbrOffsets]),
    h (0, -1) (by simp [nbrOffsets]), h (-1, -1) (by simp [nbrOffsets])]
  rfl

/-- One `Universe::tick` advances the abstract world state by exactly one
step of the standard Conway rule, provided every chunk's
`current_gen_alive` counter is accurate. -/
lemma tick_worldCur (u : Universe) (hok : countersOK u) (p : Int × Int) :
    worldCur (Universe.tick u) p = conwayStep (worldCur u) p := by
  have hgrown := worldLast_grown_eq_worldCur u
  cases hg : findChunk (p.1.fdiv 50, p.2.fdiv 50) (growChunks (prepareAll u.chunks)) with
  | some c0 =>
      have hlhs : worldCur (Universe.tick u) p
          = (c0.tick (nbrGrids (snapOf (growChunks (prepareAll u.chunks)))
              (p.1.fdiv 50, p.2.fdiv 50))).current_gen (localFin p.1) (localFin p.2) := by
        unfold worldCur
        rw [tick_chunks_eq, findChunk_tickAll, hg]
        rfl
      rw [hlhs, tick_cell _ _ _ hg (localFin p.1) (localFin p.2)]
      have hp : ((50 * (p.1.fdiv 50, p.2.fdiv 50).1 + ((localFin p.1 : Fin 50) : Int),
          50 * (p.1.fdiv 50, p.2.fdiv 50).2 + ((localFin p.2 : Fin 50) : Int)) : Int × Int)
            = p := by
        rw [Prod.mk.injEq]
        exact ⟨(world_decomp p.1).symm, (world_decomp p.2).symm⟩
      rw [hp, hgrown]
  | none =>
      have hlhs : worldCur (Universe.tick u) p = false := by
        unfold worldCur
        rw [tick_chunks_eq, findChunk_tickAll, hg]
        rfl
      rw [hlhs]
      have hself : worldCur u p = false := by
        unfold worldCur
        cases hm : findChunk (p.1.fdiv 50, p.2.fdiv 50) u.chunks with
        | none => rfl
        | some c =>
            have h1 : findChunk (p.1.fdiv 50, p.2.fdiv 50) (prepareAll u.chunks)
                = some c.prepare_tick := by
              rw [findChunk_prepareAll, hm]
              rfl
            have h2 := findChunk_foldl_ensure_of_some (growList (prepareAll u.chunks)) _ _ _ h1
            unfold growChunks at hg
            rw [h2] at hg
            cases hg
      have hnbrs : ∀ d ∈ nbrOffsets, worldCur u (p.1 + d.1, p.2 + d.2) = false := by
        intro d hd
        by_contra hq
        have hq' : worldCur u (p.1 + d.1, p.2 + d.2) = true := by
          cases hv : worldCur u (p.1 + d.1, p.2 + d.2)
          · exact absurd hv hq
          · rfl
        have hd' : (-1 ≤ d.1 ∧ d.1 ≤ 1) ∧ (-1 ≤ d.2 ∧ d.2 ≤ 1) := by
          simp only [nbrOffsets, List.mem_cons, List.not_mem_nil, or_false] at hd
          rcases hd with rfl | rfl | rfl | rfl | rfl | rfl | rfl | rfl <;> norm_num
        -- the live neighbor cell lives in an existing chunk kq
        unfold worldCur at hq'
        set kq : Int × Int := ((p.1 + d.1).fdiv 50, (p.2 + d.2).fdiv 50) with hkq
        cases hmq : findChunk kq u.chunks with
        | none => rw [hmq] at hq'; cases hq'
        | some cq =>
            rw [hmq] at hq'
            -- its counter is positive
            have hcnt : 0 < cq.current_gen_alive := by
              rw [hok kq cq hmq]
              exact count_pos_of_true _ _ _ hq'
            -- so the prepared entry pushes its whole neighbor block
            have hpre : findChunk kq (prepareAll u.chunks) = some cq.prepare_tick := by
              rw [findChunk_prepareAll, hmq]
              rfl
            have hmem : (kq, cq.prepare_tick) ∈ prepareAll u.chunks :=
              findChunk_mem _ _ _ hpre
            have halive : (cq.prepare_tick).last_gen_alive > 0 := hcnt
            -- p's chunk coordinate is one of kq's eight neighbors
            have hne : ¬(p.1.fdiv 50 - kq.1 = 0 ∧ p.2.fdiv 50 - kq.2 = 0) := by
              intro hzz
              have hkk : (p.1.fdiv 50, p.2.fdiv 50) = kq := by
                have hz1 : p.1.fdiv 50 = kq.1 := by omega
                have hz2 : p.2.fdiv 50 = kq.2 := by omega
                rw [hz1, hz2]
              rw [hkk] at hg
              unfold growChunks at hg
              have := findChunk_foldl_ensure_of_some (growList (prepareAll u.chunks)) _ _ _ hpre
              rw [this] at hg
              cases hg
            have hb1 := fdiv_near p.1 d.1 hd'.1.1 hd'.1.2
            have hb2 := fdiv_near p.2 d.2 hd'.2.1 hd'.2.2
            have hq1 : -1 ≤ p.1.fdiv 50 - kq.1 ∧ p.1.fdiv 50 - kq.1 ≤ 1 := by
              have hr : kq.1 = (p.1 + d.1).fdiv 50 := rfl
              omega
            have hq2 : -1 ≤ p.2.fdiv 50 - kq.2 ∧ p.2.fdiv 50 - kq.2 ≤ 1 := by
              have hr : kq.2 = (p.2 + d.2).fdiv 50 := rfl
              omega
            have hoff : (p.1.fdiv 50 - kq.1, p.2.fdiv 50 - kq.2) ∈ nbrOffsets :=
              mem_nbrOffsets_of_small _ _ hq1.1 hq1.2 hq2.1 hq2.2 hne
            have hgl : (p.1.fdiv 50, p.2.fdiv 50) ∈ growList (prepareAll u.chunks) := by
              rw [mem_growList]
              refine ⟨(kq, cq.prepare_tick), hmem, halive,
                (p.1.fdiv 50 - kq.1, p.2.fdiv 50 - kq.2), hoff, ?_⟩
              rw [Prod.mk.injEq]
              constructor <;> ring
            have hsome := findChunk_foldl_ensure_mem (growList (prepareAll u.chunks))
              (prepareAll u.chunks) _ hgl
            unfold growChunks at hg
            rw [hg] at hsome
            cases hsome
      unfold conwayStep
      rw [hself, neighborCount_zero _ _ hnbrs]
      simp


lemma worldCur_self (u : Universe) (k : Int × Int) (c : Chunk)
    (hc : findChunk k u.chunks = some c) (i j : Fin 50) :
    worldCur u (50 * k.1 + (i : Int), 50 * k.2 + (j : Int)) = c.current_gen i j := by
  have h := worldCur_coord u k.1 k.2 (i : Int) (j : Int) (by positivity)
    (by exact_mod_cast i.2) (by positivity) (by exact_mod_cast j.2)
  rw [show ((k.1, k.2) : Int × Int) = k from rfl] at h
  rw [h, hc]
  show c.current_gen _ _ = c.current_gen i j
  congr 1

lemma tick_keys_of_halo (u : Universe) (hnd : keysNodup u) (hh : haloComplete u) :
    keysOf (Universe.tick u).chunks = keysOf u.chunks := by
  rw [tick_chunks_eq, keysOf_tickAll]
  unfold growChunks
  have hpresent : ∀ k ∈ growList (prepareAll u.chunks),
      (findChunk k (prepareAll u.chunks)).isSome = true := by
    intro k hk
    rw [mem_growList] at hk
    obtain ⟨kc, hmem, halive, d, hd, rfl⟩ := hk
    obtain ⟨kc0, hmem0, heq⟩ := List.mem_map.mp hmem
    have hfind0 : findChunk kc0.1 u.chunks = some kc0.2 :=
      mem_findChunk_of_nodup _ _ _ hnd hmem0
    have halive0 : 0 < kc0.2.current_gen_alive := by
      have h1 : kc.2.last_gen_alive = kc0.2.current_gen_alive := by
        rw [← heq]
        rfl
      omega
    have hsome := hh kc0.1 kc0.2 hfind0 halive0 d hd
    have hk1 : kc.1 = kc0.1 := by rw [← heq]
    rw [hk1, findChunk_prepareAll]
    cases hv : findChunk (kc0.1.1 + d.1, kc0.1.2 + d.2) u.chunks with
    | none => rw [hv] at hsome; cases hsome
    | some c2 => rfl
  rw [foldl_ensure_all_present _ _ hpresent, keysOf_prepareAll]

lemma halo_after_tick (u : Universe) (hok : countersOK u)
    (hstill : conwayStep (worldCur u) = worldCur u) : haloComplete (Universe.tick u) := by
  intro k c hk hcnt d hd
  have hok' := countersOK_tick u
  have hcount : 0 < c.current_gen.count := by
    rw [← hok' k c hk]
    exact hcnt
  obtain ⟨i, j, hij⟩ := exists_true_of_count_pos _ hcount
  have hw1 : worldCur (Universe.tick u) (50 * k.1 + (i : Int), 50 * k.2 + (j : Int)) = true := by
    rw [worldCur_self _ _ _ hk i j]
    exact hij
  have hw2 : worldCur u (50 * k.1 + (i : Int), 50 * k.2 + (j : Int)) = true := by
    rw [← hstill, ← tick_worldCur u hok]
    exact hw1
  -- the pre-tick chunk at k is live, so the growth phase pushed its halo
  have hpt : ((50 * k.1 + (i : Int)).fdiv 50, (50 * k.2 + (j : Int)).fdiv 50) = k := by
    rw [fdiv_of_block k.1 (i : Int) (by positivity) (by exact_mod_cast i.2),
      fdiv_of_block k.2 (j : Int) (by positivity) (by exact_mod_cast j.2)]
  unfold worldCur at hw2
  rw [hpt] at hw2
  cases hm : findChunk k u.chunks with
  | none => rw [hm] at hw2; cases hw2
  | some c0 =>
      rw [hm] at hw2
      have hcnt0 : 0 < c0.current_gen_alive := by
        rw [hok k c0 hm]
        exact count_pos_of_true _ _ _ hw2
      have hpre : findChunk k (prepareAll u.chunks) = some c0.prepare_tick := by
        rw [findChunk_prepareAll, hm]
        rfl
      have hmem : (k, c0.prepare_tick) ∈ prepareAll u.chunks := findChunk_mem _ _ _ hpre
      have hgl : (k.1 + d.1, k.2 + d.2) ∈ growList (prepareAll u.chunks) := by
        rw [mem_growList]
        exact ⟨(k, c0.prepare_tick), hmem, hcnt0, d, hd, rfl⟩
      have hsome := findChunk_foldl_ensure_mem (growList (prepareAll u.chunks))
        (prepareAll u.chunks) _ hgl
      rw [tick_chunks_eq, findChunk_tickAll]
      unfold growChunks at hsome ⊢
      cases hv : findChunk (k.1 + d.1, k.2 + d.2)
          ((growList (prepareAll u.chunks)).foldl ensureChunk (prepareAll u.chunks)) with
      | none => rw [hv] at hsome; cases hsome
      | some c2 => rfl

lemma changed_false_after_tick (u : Universe)
    (hstill : conwayStep (worldCur u) = worldCur u) :
    ∀ k c, findChunk k (Universe.tick u).chunks = some c → c.changed = false := by
  intro k c hk
  rw [tick_chunks_eq, findChunk_tickAll] at hk
  cases hg : findChunk k (growChunks (prepareAll u.chunks)) with
  | none => rw [hg] at hk; cases hk
  | some c0 =>
      rw [hg] at hk
      injection hk with hk2
      have hcur : c.current_gen = c.last_gen := by
        funext i j
        have h1 : c.current_gen i j
            = conwayStep (worldLastM (growChunks (prepareAll u.chunks)))
                (50 * k.1 + (i : Int), 50 * k.2 + (j : Int)) := by
          rw [← hk2]
          exact tick_cell _ _ _ hg i j
        have h2 : c.last_gen i j
            = worldLastM (growChunks (prepareAll u.chunks))
                (50 * k.1 + (i : Int), 50 * k.2 + (j : Int)) := by
          rw [worldLastM_self _ _ _ hg i j, ← hk2]
          rfl
        rw [h1, h2, worldLast_grown_eq_worldCur, hstill]
      simp [Chunk.changed, hcur]

lemma still_run (u : Universe) (hnd : keysNodup u) (hok : countersOK u)
    (hstill : conwayStep (worldCur u) = worldCur u) (n : Nat) :
    keysNodup (tickN (n + 1) u) ∧ countersOK (tickN (n + 1) u) ∧
    worldCur (tickN (n + 1) u) = worldCur u ∧ haloComplete (tickN (n + 1) u) ∧
    (∀ k c, findChunk k (tickN (n + 1) u).chunks = some c → c.changed = false) ∧
    keysOf (tickN (n + 1) u).chunks = keysOf (tickN 1 u).chunks := by
  induction n with
  | zero =>
      refine ⟨keysNodup_tick u hnd, countersOK_tick u, ?_, halo_after_tick u hok hstill,
        changed_false_after_tick u hstill, rfl⟩
      funext p
      rw [show tickN 1 u = Universe.tick u from rfl, tick_worldCur u hok p,
        show conwayStep (worldCur u) p = worldCur u p from by rw [hstill]]
  | succ n ih =>
      obtain ⟨ih1, ih2, ih3, ih4, ih5, ih6⟩ := ih
      have hstill' : conwayStep (worldCur (tickN (n + 1) u)) = worldCur (tickN (n + 1) u) := by
        rw [ih3]
        exact hstill
      have hstep : tickN (n + 2) u = Universe.tick (tickN (n + 1) u) := rfl
      refine ⟨?_, ?_, ?_, ?_, ?_, ?_⟩
      · rw [hstep]; exact keysNodup_tick _ ih1
      · rw [hstep]; exact countersOK_tick _
      · rw [hstep]
        funext p
        rw [tick_worldCur _ ih2 p, show conwayStep (worldCur (tickN (n + 1) u)) p
          = worldCur (tickN (n + 1) u) p from by rw [hstill'], ih3]
      · rw [hstep]; exact halo_after_tick _ ih2 hstill'
      · rw [hstep]; exact changed_false_after_tick _ hstill'
      · rw [hstep, tick_keys_of_halo _ ih1 ih4]
        exact ih6


lemma worldCur_uBlock (p : Int × Int) : worldCur uBlock p = blockIndicator p := by
  by_cases h : ((0 : Int), (0 : Int)) = (p.1.fdiv 50, p.2.fdiv 50)
  · have hf : findChunk (p.1.fdiv 50, p.2.fdiv 50) uBlock.chunks = some blockChunk := by
      show (if ((0 : Int), (0 : Int)) = (p.1.fdiv 50, p.2.fdiv 50) then some blockChunk
        else findChunk (p.1.fdiv 50, p.2.fdiv 50) []) = some blockChunk
      rw [if_pos h]
    unfold worldCur
    rw [hf]
    rw [Prod.mk.injEq] at h
    have hx : 0 ≤ p.1 ∧ p.1 < 50 := by
      have := Int.fdiv_eq_ediv p.1 (b := 50) (by norm_num)
      omega
    have hy : 0 ≤ p.2 ∧ p.2 < 50 := by
      have := Int.fdiv_eq_ediv p.2 (b := 50) (by norm_num)
      omega
    have hlx : ((localFin p.1 : Fin 50) : Int) = p.1 := by
      rw [localFin_val]
      omega
    have hly : ((localFin p.2 : Fin 50) : Int) = p.2 := by
      rw [localFin_val]
      omega
    show blockGrid (localFin p.1) (localFin p.2) = blockIndicator p
    unfold blockGrid blockIndicator
    rw [decide_eq_decide]
    omega
  · have hf : findChunk (p.1.fdiv 50, p.2.fdiv 50) uBlock.chunks = none := by
      show (if ((0 : Int), (0 : Int)) = (p.1.fdiv 50, p.2.fdiv 50) then some blockChunk
        else findChunk (p.1.fdiv 50, p.2.fdiv 50) []) = none
      rw [if_neg h]
      rfl
    unfold worldCur
    rw [hf]
    have hne : ¬(p.1.fdiv 50 = 0 ∧ p.2.fdiv 50 = 0) := by
      intro hz
      exact h (by rw [Prod.mk.injEq]; omega)
    symm
    simp only [blockIndicator, decide_eq_false_iff_not]
    rintro ⟨hx, hy⟩
    have hdx : p.1.fdiv 50 = 0 := by
      rw [Int.fdiv_eq_ediv _ (by norm_num)]
      omega
    have hdy : p.2.fdiv 50 = 0 := by
      rw [Int.fdiv_eq_ediv _ (by norm_num)]
      omega
    exact hne ⟨hdx, hdy⟩

lemma blockIndicator_still : conwayStep blockIndicator = blockIndicator := by
  funext p
  by_cases hw : 8 ≤ p.1 ∧ p.1 ≤ 13 ∧ 8 ≤ p.2 ∧ p.2 ≤ 13
  · obtain ⟨h1, h2, h3, h4⟩ := hw
    obtain ⟨a, b⟩ := p
    simp only at h1 h2 h3 h4
    interval_cases a <;> interval_cases b <;> decide
  · have hp : blockIndicator p = false := by
      simp only [blockIndicator, decide_eq_false_iff_not]
      rintro ⟨hx, hy⟩
      omega
    have hn : ∀ d ∈ nbrOffsets, blockIndicator (p.1 + d.1, p.2 + d.2) = false := by
      intro d hd
      have hd' : (-1 ≤ d.1 ∧ d.1 ≤ 1) ∧ (-1 ≤ d.2 ∧ d.2 ≤ 1) := by
        simp only [nbrOffsets, List.mem_cons, List.not_mem_nil, or_false] at hd
        rcases hd with rfl | rfl | rfl | rfl | rfl | rfl | rfl | rfl <;> norm_num
      simp only [blockIndicator, decide_eq_false_iff_not]
      rintro ⟨hx, hy⟩
      omega
    unfold conwayStep
    rw [hp, neighborCount_zero _ _ hn]
    simp

lemma uBlock_still : conwayStep (worldCur uBlock) = worldCur uBlock := by
  have h : worldCur uBlock = blockIndicator := funext worldCur_uBlock
  rw [h, blockIndicator_still]

set_option maxRecDepth 8000 in
lemma countersOK_uBlock : countersOK uBlock := by
  intro k c h
  unfold uBlock at h
  by_cases hk : ((0 : Int), (0 : Int)) = k
  · rw [show findChunk k [((0, 0), blockChunk)] = some blockChunk from by
      show (if ((0 : Int), (0 : Int)) = k then some blockChunk else findChunk k []) = _
      rw [if_pos hk]] at h
    injection h with h2
    rw [← h2]
    show (4 : Int) = blockGrid.count
    decide
  · rw [show findChunk k [((0, 0), blockChunk)] = none from by
      show (if ((0 : Int), (0 : Int)) = k then some blockChunk else findChunk k []) = _
      rw [if_neg hk]
      rfl] at h
    cases h

/-- C9 (amended): for a universe whose live cells form a still-life (the
world field is a fixed point of the Conway step), whose chunk keys are
distinct, and whose alive counters are accurate, repeated `tick()` calls
keep `changed()` false for every chunk after every tick; the chunk map may
gain the eight-neighbor halo of each live chunk during the first tick, but
from then on the key set never changes (`tickN (n+2)` has the same keys as
`tickN 1` for every `n`). -/
theorem claim_C9 (u : Universe) (hnd : keysNodup u) (hok : countersOK u)
    (hstill : conwayStep (worldCur u) = worldCur u) (n : Nat) :
    (∀ k c, findChunk k (tickN (n + 1) u).chunks = some c → c.changed = false) ∧
    keysOf (tickN (n + 2) u).chunks = keysOf (tickN 1 u).chunks :=
  ⟨(still_run u hnd hok hstill n).2.2.2.2.1,
   (still_run u hnd hok hstill (n + 1)).2.2.2.2.2⟩

/-- C9 counterexample: the universe holding one isolated still-life block
with accurate counters is a fixed point of the Conway step, yet one `tick()`
creates chunk `(0, 1)` (part of the eight-neighbor halo), so the chunk map
does gain entries, contrary to the claim as stated. -/
theorem claim_C9_counterexample :
    (conwayStep (worldCur uBlock) = worldCur uBlock) ∧
    findChunk (0, 1) uBlock.chunks = none ∧
    (findChunk (0, 1) (Universe.tick uBlock).chunks).isSome = true :=
  ⟨uBlock_still, rfl, by decide⟩

/-- Witness for C9 at the concrete still-life universe `uBlock` with
`n = 0`. -/
theorem claim_C9_witness :
    (∀ k c, findChunk k (tickN 1 uBlock).chunks = some c → c.changed = false) ∧
    keysOf (tickN 2 uBlock).chunks = keysOf (tickN 1 uBlock).chunks :=
  claim_C9 uBlock (by unfold keysNodup; decide) countersOK_uBlock uBlock_still 0
